import Mathlib

/-!
Shallow embedding of the OUTlook CSV-to-DNS filtering pipeline
(`src/app/page.tsx`, `FileUpload` component, both variants).

The embedding models:
* `normalizeDomain` — the domain normalizer (lines 57-61 / 249-253);
* `detectDomainColumn` with the two synonym lists (lines 87-91 and 280-319);
* `runFilter` — the per-row MX-resolution loop (lines 107-129 / 338-360),
  with the DNS-over-HTTPS call abstracted as a function
  `resolve : String → Option MXRecordResponse` (`none` models a thrown
  request error, i.e. the `catch` branch);
* `processCSV` — the post-parse orchestration (column detection, row
  normalization, loop), plus `exportFields` modelling which columns
  `Papa.unparse` writes (the keys of the first row object).

Machine strings are modelled as Lean `String`/`List Char`; JavaScript
`trim`/`toLowerCase` are modelled on the ASCII range (the inputs of
interest are ASCII).  JavaScript falsiness of `""`/`undefined` is made
explicit at each use site.
-/

namespace OUTlook

/-- JS `String.prototype.trim`, at the `List Char` level: drop whitespace
from both ends. -/
def jsTrimL (l : List Char) : List Char :=
  ((l.dropWhile Char.isWhitespace).reverse.dropWhile Char.isWhitespace).reverse

/-- JS `String.prototype.toLowerCase`, modelled character-wise with
`Char.toLower` (ASCII case mapping, matching JS on the basic latin range). -/
def toLowerCase (s : String) : String :=
  ⟨s.data.map Char.toLower⟩

/-- One left-to-right pass of the global replacement
`url.replace(/https?:\/\/|www\./g, "")` (line 60): at each position, if one of
the alternatives `https://`, `http://`, `www.` matches, it is removed and
scanning resumes after the match; otherwise the character is kept.  The
fuel argument (instantiated with the list length in `stripPats`) makes the
recursion structural; when `l.length ≤ fuel` the fuel never runs out. -/
def stripPatsF : Nat → List Char → List Char
  | 0, l => l
  | _ + 1, [] => []
  | n + 1, c :: cs =>
    if "https://".data.isPrefixOf (c :: cs) then stripPatsF n ((c :: cs).drop 8)
    else if "http://".data.isPrefixOf (c :: cs) then stripPatsF n ((c :: cs).drop 7)
    else if "www.".data.isPrefixOf (c :: cs) then stripPatsF n ((c :: cs).drop 4)
    else c :: stripPatsF n cs

/-- The global regex replacement of line 60, as a total function. -/
def stripPats (l : List Char) : List Char :=
  stripPatsF l.length l

/-- `true` iff one of the regex alternatives `https://`, `http://`, `www.`
matches at some position of `l`. -/
def hasPat : List Char → Bool
  | [] => false
  | c :: cs =>
    "https://".data.isPrefixOf (c :: cs) || "http://".data.isPrefixOf (c :: cs)
      || "www.".data.isPrefixOf (c :: cs) || hasPat cs

/-- The core of `normalizeDomain` on the character list of a present,
non-empty input: `domain.trim().toLowerCase()`, then the global
replacement, then `.split("/")[0]` (the prefix before the first `/`). -/
def normList (l : List Char) : List Char :=
  (stripPats ((jsTrimL l).map Char.toLower)).takeWhile (fun c => c != '/')

/-- `normalizeDomain` (lines 57-61): `undefined` input stays `undefined`;
the empty string is falsy in JS, so `!domain` also maps `""` to
`undefined`; otherwise trim, lower-case, globally strip the regex
alternatives, and keep the part before the first `/`. -/
def normalizeDomain (domain : Option String) : Option String :=
  match domain with
  | none => none
  | some d => if d = "" then none else some ⟨normList d.data⟩

/-- The synonym list of the first `FileUpload` variant (line 88).  The
mixed-case entries are kept verbatim from the source; since they are
compared against an already lower-cased header key, they can never match. -/
def domainColumnNamesV1 : List String :=
  ["domain", "website", "url", "Website", "Domain", "Company website", "company domain"]

/-- The synonym list of the second `FileUpload` variant (lines 280-314),
verbatim from the source. -/
def domainColumnNames : List String :=
  ["domain", "website", "url", "web address", "company website", "company domain",
   "business website", "business domain", "Domain", "Website", "URL", "Web Address",
   "Company Website", "Company Domain", "web_site", "web-site", "web.address",
   "company_website", "company.website", "companydomain", "businesswebsite",
   "homepage", "landing_page", "primary_url", "root_domain", "site_url",
   "website_url", "corporate_site", "corporate_url", "organization_url",
   "organization_site", "company_url", "business_url"]

/-- Column detection (lines 87-91 / 316-319):
`Object.keys(data[0] || {}).find(col => names.includes(col.toLowerCase()))`.
`keys` is the key list of the first data row (in insertion order). -/
def detectDomainColumn (names : List String) (keys : List String) : Option String :=
  keys.find? (fun col => names.contains (toLowerCase col))

/-- A CSV row object: an ordered association of column name to
string-or-`undefined` value, as produced by `Papa.parse` with
`header: true`. -/
abbrev Row := List (String × Option String)

/-- `Object.keys` of a row object: the keys in insertion order. -/
def rowKeys (r : Row) : List String :=
  r.map Prod.fst

/-- JS property access `row[k]`: `undefined` both when the key is absent
and when it is present with value `undefined`. -/
def getVal (r : Row) (k : String) : Option String :=
  match r.find? (fun p => p.1 == k) with
  | some p => p.2
  | none => none

/-- The object spread `{...row, k: v}` (lines 99-102): if `k` already
exists its value is overwritten in place, otherwise the key is appended
at the end of the insertion order. -/
def setKey (r : Row) (k : String) (v : Option String) : Row :=
  if r.any (fun p => p.1 == k) then
    r.map (fun p => if p.1 == k then (p.1, v) else p)
  else
    r ++ [(k, v)]

/-- The loop guard `if (!row.normalizedDomain) continue` (line 108): the
domain used for resolution, or `none` when the field is `undefined` or
the empty string (both falsy in JS). -/
def rowDomain (row : Row) : Option String :=
  match getVal row "normalizedDomain" with
  | none => none
  | some s => if s = "" then none else some s

/-- The response body of the DNS-over-HTTPS query (lines 45-47): an
optional `Answer` array, already projected to the records' `data`
strings. -/
structure MXRecordResponse where
  Answer : Option (List String)
deriving DecidableEq

/-- `mxRecords.some(record => record.includes(".outlook"))`
(lines 117-119). `containsSubstr pat s` models `s.includes(pat)`. -/
def containsSubstr (pat : List Char) : List Char → Bool
  | [] => pat.isPrefixOf []
  | c :: cs => pat.isPrefixOf (c :: cs) || containsSubstr pat cs

/-- The exclusion predicate on a resolved record list (lines 117-119). -/
def hasOutlook (mxRecords : List String) : Bool :=
  mxRecords.any (fun record => containsSubstr ".outlook".data record.data)

/-- The result of one pipeline run: the accumulated `filteredData`
(kept rows, in original order), the counter `filteredRecords`
(`removedCount`), and the trace of domains passed to the resolver
(one entry per `axios.get`, in call order). -/
structure Outcome where
  kept : List Row
  removedCount : Nat
  calls : List String
deriving DecidableEq

/-- The `for (const row of normalizedData)` loop (lines 107-129).
`resolve d = none` models `axios.get` throwing (network error, timeout,
non-2xx response): the `catch` branch only logs, so the row is neither
pushed to `filteredData` nor counted.  `resolve d = some resp` models a
successful response; `mxRecords` is `resp.Answer?.map(r => r.data) || []`. -/
def runFilter (resolve : String → Option MXRecordResponse) : List Row → Outcome
  | [] => ⟨[], 0, []⟩
  | row :: rest =>
    let o := runFilter resolve rest
    match rowDomain row with
    | none => o
    | some d =>
      match resolve d with
      | none => ⟨o.kept, o.removedCount, d :: o.calls⟩
      | some resp =>
        let mxRecords := resp.Answer.getD []
        if hasOutlook mxRecords then ⟨o.kept, o.removedCount + 1, d :: o.calls⟩
        else ⟨row :: o.kept, o.removedCount, d :: o.calls⟩

/-- Result of `processCSV` after parsing: either the early return with
`setError("No domain/website column found…")` (before any network
activity, hence with an empty call trace), or the final
`setProcessedData`/`setFilteredCount` values together with the call
trace. -/
inductive ProcessResult where
  | noDomainColumn (calls : List String)
  | done (kept : List Row) (removedCount : Nat) (calls : List String)
deriving DecidableEq

set_option linter.unusedVariables false in
/-- The `complete` callback of `processCSV` (lines 84-135), parameterized
by the synonym list `names` (the two source variants differ only there)
and by the resolver.  `header` models `results.meta.fields`, the parsed
header row: the source never reads it — column detection uses
`Object.keys(data[0] || {})`, the keys of the first data row. -/
def processCSV (header : List String) (names : List String)
    (resolve : String → Option MXRecordResponse) (data : List Row) : ProcessResult :=
  let keys := ((data.head?.map rowKeys).getD [])
  match detectDomainColumn names keys with
  | none => ProcessResult.noDomainColumn []
  | some domainColumn =>
    let normalizedData :=
      data.map (fun row => setKey row "normalizedDomain" (normalizeDomain (getVal row domainColumn)))
    let o := runFilter resolve normalizedData
    ProcessResult.done o.kept o.removedCount o.calls

/-- The columns `Papa.unparse` writes for an array of row objects
(`downloadCSV`, lines 148-154): the fields of the first row object. -/
def exportFields (rows : List Row) : List String :=
  (rows.head?.map rowKeys).getD []

/-- Decision predicate: the row reaches the `push` (kept) branch —
present normalized domain, successful resolution, no `.outlook` record. -/
def keepsRow (resolve : String → Option MXRecordResponse) (row : Row) : Bool :=
  match rowDomain row with
  | none => false
  | some d =>
    match resolve d with
    | none => false
    | some resp => !(hasOutlook (resp.Answer.getD []))

/-- Decision predicate: the row reaches the counter (excluded) branch —
present normalized domain, successful resolution, some `.outlook` record. -/
def excludesRow (resolve : String → Option MXRecordResponse) (row : Row) : Bool :=
  match rowDomain row with
  | none => false
  | some d =>
    match resolve d with
    | none => false
    | some resp => hasOutlook (resp.Answer.getD [])

/-! ### Helper lemmas about the normalizer -/

/-- `Char.toLower` maps the uppercase ASCII range by adding 32. -/
theorem toLower_eq_of_upper {c : Char} (h : c.toNat ≥ 65 ∧ c.toNat ≤ 90) :
    Char.toLower c = Char.ofNat (c.toNat + 32) := by
  unfold Char.toLower
  exact if_pos h

/-- `Char.toLower` fixes every character outside the uppercase ASCII range. -/
theorem toLower_eq_self {c : Char} (h : ¬(c.toNat ≥ 65 ∧ c.toNat ≤ 90)) :
    Char.toLower c = c := by
  unfold Char.toLower
  exact if_neg h

/-- ASCII lower-casing is idempotent character-wise. -/
theorem toLower_toLower (c : Char) : Char.toLower (Char.toLower c) = Char.toLower c := by
  by_cases h : c.toNat ≥ 65 ∧ c.toNat ≤ 90
  · rw [toLower_eq_of_upper h]
    obtain ⟨h1, h2⟩ := h
    revert h1 h2
    generalize c.toNat = n
    intro h1 h2
    interval_cases n <;> decide
  · rw [toLower_eq_self h, toLower_eq_self h]

/-- If no regex alternative matches anywhere, the replacement pass is the
identity (for any amount of fuel). -/
theorem stripPatsF_eq_self : ∀ (n : Nat) (l : List Char), hasPat l = false → stripPatsF n l = l := by
  intro n
  induction n with
  | zero => intro l _; rfl
  | succ n ih =>
    intro l hl
    cases l with
    | nil => rfl
    | cons c cs =>
      simp only [hasPat, Bool.or_eq_false_iff] at hl
      obtain ⟨⟨⟨h1, h2⟩, h3⟩, h4⟩ := hl
      simp only [stripPatsF, h1, h2, h3, Bool.false_eq_true, if_false]
      rw [ih cs h4]

/-- If no regex alternative matches anywhere, the global replacement is the
identity. -/
theorem stripPats_eq_self {l : List Char} (hl : hasPat l = false) : stripPats l = l :=
  stripPatsF_eq_self l.length l hl

/-- The replacement pass only removes characters, in order. -/
theorem stripPatsF_sublist : ∀ (n : Nat) (l : List Char), List.Sublist (stripPatsF n l) l := by
  intro n
  induction n with
  | zero => intro l; exact List.Sublist.refl l
  | succ n ih =>
    intro l
    cases l with
    | nil => exact List.Sublist.refl []
    | cons c cs =>
      simp only [stripPatsF]
      by_cases h1 : "https://".data.isPrefixOf (c :: cs) = true
      · rw [if_pos h1]
        exact (ih _).trans (List.drop_sublist 8 (c :: cs))
      · rw [if_neg h1]
        by_cases h2 : "http://".data.isPrefixOf (c :: cs) = true
        · rw [if_pos h2]
          exact (ih _).trans (List.drop_sublist 7 (c :: cs))
        · rw [if_neg h2]
          by_cases h3 : "www.".data.isPrefixOf (c :: cs) = true
          · rw [if_pos h3]
            exact (ih _).trans (List.drop_sublist 4 (c :: cs))
          · rw [if_neg h3]
            exact (ih cs).cons₂ c

/-- The global replacement only removes characters, in order. -/
theorem stripPats_sublist (l : List Char) : List.Sublist (stripPats l) l :=
  stripPatsF_sublist l.length l

/-- Every character of a normalized domain is fixed by lower-casing
(the normalizer lower-cases before stripping, and stripping and the final
split only remove characters). -/
theorem normList_mem_lower {l : List Char} {a : Char} (ha : a ∈ normList l) :
    Char.toLower a = a := by
  unfold normList at ha
  have h1 : a ∈ stripPats ((jsTrimL l).map Char.toLower) :=
    (List.takeWhile_prefix _).subset ha
  have h2 : a ∈ (jsTrimL l).map Char.toLower :=
    (stripPats_sublist _).subset h1
  obtain ⟨b, _, rfl⟩ := List.mem_map.1 h2
  exact toLower_toLower b

/-- A normalized domain contains no `/` (it is the prefix before the
first `/`). -/
theorem normList_no_slash {l : List Char} {a : Char} (ha : a ∈ normList l) :
    (a != '/') = true := by
  unfold normList at ha
  have h := List.mem_takeWhile_imp ha
  exact h

/-! ### C3 and C4: the domain normalizer -/

/-- C3, counterexample: the normalizer is not idempotent.  In the source,
`normalizeDomain("www.")` is the empty string (the whole input is consumed
by the global `www.` replacement), but the empty string is falsy, so a
second application returns `undefined`. -/
theorem normalizeDomain_not_idempotent :
    normalizeDomain (normalizeDomain (some "www.")) ≠ normalizeDomain (some "www.") := by
  decide

/-- C3, amended: `normalize` is idempotent on every input whose
normalization is a non-empty string that carries no surrounding
whitespace and no residual occurrence of `https://`, `http://` or `www.`
(a residual occurrence can be created by the single left-to-right
replacement pass, e.g. `normalize("wwww.ww.x") = "www.x"`).  On such
outputs a second pass trims nothing, lower-casing is the identity
(outputs are already lower-case), the replacement finds no match and no
`/` is present, so the output is returned unchanged. -/
theorem normalizeDomain_idem_of_normalized :
    ∀ (x : Option String) (y : String), normalizeDomain x = some y → y ≠ "" →
      jsTrimL y.data = y.data → hasPat y.data = false →
      normalizeDomain (some y) = some y := by
  intro x y hxy hne htrim hpat
  cases x with
  | none => exact absurd hxy (by simp [normalizeDomain])
  | some d =>
    simp only [normalizeDomain] at hxy
    by_cases hd : d = ""
    · rw [if_pos hd] at hxy
      exact absurd hxy (by simp)
    · rw [if_neg hd] at hxy
      have hy : y.data = normList d.data := by
        have := Option.some.inj hxy
        exact (congrArg String.data this).symm
      have hlow : y.data.map Char.toLower = y.data := by
        have : ∀ a ∈ y.data, Char.toLower a = id a := by
          intro a ha
          exact normList_mem_lower (hy ▸ ha)
        rw [List.map_congr_left this, List.map_id]
      have hslash : ∀ a ∈ y.data, (a != '/') = true := by
        intro a ha
        exact normList_no_slash (hy ▸ ha)
      simp only [normalizeDomain, if_neg hne]
      have : normList y.data = y.data := by
        unfold normList
        rw [htrim, hlow, stripPats_eq_self hpat, List.takeWhile_eq_self_iff.2 hslash]
      rw [this]

/-- Witness for `normalizeDomain_idem_of_normalized` at the concrete
input `"sub.example.com"`. -/
theorem normalizeDomain_idem_of_normalized_witness :
    normalizeDomain (some "sub.example.com") = some "sub.example.com" ∧
      "sub.example.com" ≠ "" ∧
      jsTrimL "sub.example.com".data = "sub.example.com".data ∧
      hasPat "sub.example.com".data = false ∧
      normalizeDomain (some "sub.example.com") = some "sub.example.com" :=
  ⟨by decide, by decide, by decide, by decide,
    normalizeDomain_idem_of_normalized (some "sub.example.com") "sub.example.com"
      (by decide) (by decide) (by decide) (by decide)⟩

/-- C4, counterexample: stripping is not restricted to the start of the
string.  The global replacement removes the `www.` in the middle of
`"a.www.b"`, so this non-URL-shaped string is not returned as-is. -/
theorem normalizeDomain_strips_beyond_start :
    normalizeDomain (some "a.www.b") = some "a.b" ∧
      (some "a.b" : Option String) ≠ some "a.www.b" := by
  constructor
  · decide
  · decide

/-- C4, amended: the normalizer trims surrounding whitespace,
lower-cases, removes every occurrence of `http://`, `https://` and
`www.` anywhere in the string in a single left-to-right pass (not only
at the start), then returns the prefix before the first `/`; the
spec's example still normalizes to `"example.com"`; a string containing
none of the three patterns (after trim/lower-casing) and no `/` is
returned as-is after trim and lower-casing; absent input and the empty
string yield absent. -/
theorem normalizeDomain_behavior :
    normalizeDomain none = none ∧
    normalizeDomain (some "") = none ∧
    normalizeDomain (some "HTTPS://WWW.Example.com/path?q=1") = some "example.com" ∧
    normalizeDomain (some "foo.www.bar.com/x") = some "foo.bar.com" ∧
    ∀ d : String, d ≠ "" →
      hasPat ((jsTrimL d.data).map Char.toLower) = false →
      (((jsTrimL d.data).map Char.toLower).all (fun c => c != '/')) = true →
      normalizeDomain (some d) = some ⟨(jsTrimL d.data).map Char.toLower⟩ := by
  refine ⟨rfl, by decide, by decide, by decide, ?_⟩
  intro d hne hpat hslash
  simp only [normalizeDomain, if_neg hne]
  unfold normList
  rw [stripPats_eq_self hpat, List.takeWhile_eq_self_iff.2 (by simpa [List.all_eq_true] using hslash)]

/-- Witness for `normalizeDomain_behavior` at the concrete input
`"Example.Com"`. -/
theorem normalizeDomain_behavior_witness :
    "Example.Com" ≠ "" ∧
      hasPat ((jsTrimL "Example.Com".data).map Char.toLower) = false ∧
      (((jsTrimL "Example.Com".data).map Char.toLower).all (fun c => c != '/')) = true ∧
      normalizeDomain (some "Example.Com") = some ⟨(jsTrimL "Example.Com".data).map Char.toLower⟩ :=
  ⟨by decide, by decide, by decide,
    normalizeDomain_behavior.2.2.2.2 "Example.Com" (by decide) (by decide) (by decide)⟩

/-! ### C5: column detection -/

/-- `find?` returns the head of the suffix remaining after the
non-matching prefix is dropped. -/
theorem find?_eq_head?_dropWhile (p : α → Bool) (l : List α) :
    l.find? p = (l.dropWhile (fun a => !(p a))).head? := by
  induction l with
  | nil => rfl
  | cons a l ih =>
    cases h : p a with
    | true => simp [List.find?_cons, List.dropWhile_cons, h]
    | false => simpa [List.find?_cons, List.dropWhile_cons, h] using ih

/-- C5, counterexample: with the first variant's synonym list, the header
`["Name","Company Website","Domain"]` is resolved to `"Domain"`, not
`"Company Website"`: the list's `"Company website"` entry is mixed-case,
and a lower-cased header key can never equal it. -/
theorem detect_v1_misses_company_website :
    detectDomainColumn domainColumnNamesV1 ["Name", "Company Website", "Domain"] = some "Domain" ∧
      (some "Domain" : Option String) ≠ some "Company Website" := by
  constructor
  · decide
  · decide

/-- C5, amended: detection lower-cases each header key in order and
returns the first whose lower-cased form is contained in the synonym
list (equivalently, the head of what remains after dropping the
non-matching prefix).  With the second variant's comprehensive list the
spec's example yields `"Company Website"`; with the first variant's
list — whose multi-word entries are mixed-case and hence unreachable —
the same header yields `"Domain"`. -/
theorem detectDomainColumn_first_match :
    detectDomainColumn domainColumnNames ["Name", "Company Website", "Domain"] = some "Company Website" ∧
    detectDomainColumn domainColumnNamesV1 ["Name", "Company Website", "Domain"] = some "Domain" ∧
    ∀ (names keys : List String),
      detectDomainColumn names keys =
        (keys.dropWhile (fun col => !(names.contains (toLowerCase col)))).head? := by
  refine ⟨by decide, by decide, ?_⟩
  intro names keys
  exact find?_eq_head?_dropWhile _ keys

/-! ### Helper lemmas about the pipeline -/

/-- The loop is equivalent to: keep the rows satisfying `keepsRow` (in
order), count the rows satisfying `excludesRow`, and call the resolver
once per present normalized domain (in order). -/
theorem runFilter_eq (resolve : String → Option MXRecordResponse) (rows : List Row) :
    runFilter resolve rows =
      ⟨rows.filter (keepsRow resolve), (rows.filter (excludesRow resolve)).length,
        rows.filterMap rowDomain⟩ := by
  induction rows with
  | nil => rfl
  | cons row rest ih =>
    simp only [runFilter, ih]
    cases hD : rowDomain row with
    | none =>
      simp [List.filter_cons, List.filterMap_cons, keepsRow, excludesRow, hD]
    | some d =>
      cases hR : resolve d with
      | none =>
        simp [List.filter_cons, List.filterMap_cons, keepsRow, excludesRow, hD, hR]
      | some resp =>
        cases hO : hasOutlook (resp.Answer.getD []) with
        | false =>
          simp [List.filter_cons, List.filterMap_cons, keepsRow, excludesRow, hD, hR, hO]
        | true =>
          simp [List.filter_cons, List.filterMap_cons, keepsRow, excludesRow, hD, hR, hO]

/-- No row is both kept and counted. -/
theorem keeps_excludes_disjoint (resolve : String → Option MXRecordResponse) (row : Row) :
    ¬(keepsRow resolve row = true ∧ excludesRow resolve row = true) := by
  rintro ⟨hkeep, hexcl⟩
  cases hD : rowDomain row with
  | none => simp [keepsRow, hD] at hkeep
  | some d =>
    cases hR : resolve d with
    | none => simp [keepsRow, hD, hR] at hkeep
    | some resp =>
      have hk : hasOutlook (resp.Answer.getD []) = false := by
        simpa [keepsRow, hD, hR] using hkeep
      have he : hasOutlook (resp.Answer.getD []) = true := by
        simpa [excludesRow, hD, hR] using hexcl
      rw [hk] at he
      exact Bool.false_ne_true he

/-- Filtering by two disjoint predicates accounts for at most all the
elements. -/
theorem length_filter_add_length_filter_le (p q : α → Bool) (l : List α)
    (h : ∀ x, ¬(p x = true ∧ q x = true)) :
    (l.filter p).length + (l.filter q).length ≤ l.length := by
  induction l with
  | nil => simp
  | cons a l ih =>
    rw [List.filter_cons, List.filter_cons]
    cases hp : p a with
    | true =>
      have hq : q a = false := by
        cases hqv : q a
        · rfl
        · exact absurd ⟨hp, hqv⟩ (h a)
      rw [hq]
      simp
      omega
    | false =>
      cases hq : q a with
      | true =>
        simp
        omega
      | false =>
        simp
        omega

/-- `setKey` always leaves the key present in the row's key list. -/
theorem mem_rowKeys_setKey (r : Row) (k : String) (v : Option String) :
    k ∈ rowKeys (setKey r k v) := by
  unfold setKey rowKeys
  by_cases h : r.any (fun p => p.1 == k) = true
  · rw [if_pos h]
    obtain ⟨p, hp, hpk⟩ := List.any_eq_true.1 h
    have hke : p.1 = k := by simpa using hpk
    refine List.mem_map.2 ⟨(p.1, v), List.mem_map.2 ⟨p, hp, ?_⟩, hke⟩
    simp [hpk]
  · rw [if_neg h, List.map_append]
    exact List.mem_append.2 (Or.inr (by simp))

/-! ### C1: resolution errors -/

/-- C1, counterexample: a run over a single row whose MX lookup throws.
The `catch` branch only logs, so the code produces kept `= []` — the row
is silently dropped — while the claim mandates that the row be placed in
the kept output (the second disjunct is the outcome the claim requires). -/
theorem processCSV_error_row_dropped :
    processCSV [] domainColumnNamesV1 (fun _ => none) [[("domain", some "example.com")]]
      = ProcessResult.done [] 0 ["example.com"] ∧
    ProcessResult.done ([] : List Row) 0 ["example.com"]
      ≠ ProcessResult.done [[("domain", some "example.com"), ("normalizedDomain", some "example.com")]]
          0 ["example.com"] := by
  constructor
  · rfl
  · decide

/-- C1, amended: a row whose MX lookup raises a resolution error is
skipped — it is neither placed in the kept output nor counted in
removedCount (the resolver call is still recorded) — and the pipeline
continues with the remaining rows unchanged. -/
theorem runFilter_resolution_error_skips :
    ∀ (resolve : String → Option MXRecordResponse) (row : Row) (rest : List Row) (d : String),
      rowDomain row = some d → resolve d = none →
      runFilter resolve (row :: rest) =
        ⟨(runFilter resolve rest).kept, (runFilter resolve rest).removedCount,
          d :: (runFilter resolve rest).calls⟩ := by
  intro resolve row rest d hD hR
  simp [runFilter, hD, hR]

/-- Witness for `runFilter_resolution_error_skips` on a concrete
erroring resolver. -/
theorem runFilter_resolution_error_skips_witness :
    rowDomain [("normalizedDomain", some "x.com")] = some "x.com" ∧
    (fun _ : String => (none : Option MXRecordResponse)) "x.com" = none ∧
    runFilter (fun _ : String => none) [[("normalizedDomain", some "x.com")]] =
      ⟨(runFilter (fun _ : String => none) ([] : List Row)).kept,
        (runFilter (fun _ : String => none) ([] : List Row)).removedCount,
        "x.com" :: (runFilter (fun _ : String => none) ([] : List Row)).calls⟩ :=
  ⟨rfl, rfl,
    runFilter_resolution_error_skips (fun _ => none) [("normalizedDomain", some "x.com")] [] "x.com" rfl rfl⟩

/-! ### C2: exported columns -/

/-- C2, counterexample: a concrete run whose kept row carries the
internal `normalizedDomain` field into the export.  The exported field
list (`Papa.unparse` uses the first row object's keys) contains
`normalizedDomain`, which is not among the input columns — the claim
says it must not appear. -/
theorem export_contains_normalizedDomain :
    processCSV [] domainColumnNamesV1 (fun _ => some ⟨some ["10 mx.other.com."]⟩)
        [[("domain", some "a.com"), ("company", some "A")]]
      = ProcessResult.done
          [[("domain", some "a.com"), ("company", some "A"), ("normalizedDomain", some "a.com")]]
          0 ["a.com"] ∧
    "normalizedDomain" ∈ exportFields
        [[("domain", some "a.com"), ("company", some "A"), ("normalizedDomain", some "a.com")]] ∧
    "normalizedDomain" ∉ rowKeys [("domain", (some "a.com" : Option String)), ("company", some "A")] := by
  refine ⟨by decide, by decide, by decide⟩

/-- C2, amended: the exported file's schema is the input schema plus the
internal `normalizedDomain` column: every kept (hence exported) row is
an input row with the `normalizedDomain` field attached, so the internal
field does appear in the exported file. -/
theorem processCSV_kept_rows_have_normalizedDomain :
    ∀ (header names : List String) (resolve : String → Option MXRecordResponse)
      (data kept : List Row) (n : Nat) (calls : List String),
      processCSV header names resolve data = ProcessResult.done kept n calls →
      ∀ r ∈ kept, "normalizedDomain" ∈ rowKeys r ∧
        ∃ src ∈ data, ∃ v : Option String, r = setKey src "normalizedDomain" v := by
  intro header names resolve data kept n calls hp r hr
  cases hdet : detectDomainColumn names ((data.head?.map rowKeys).getD []) with
  | none => simp [processCSV, hdet] at hp
  | some dc =>
    simp only [processCSV, hdet] at hp
    rw [runFilter_eq] at hp
    cases hp
    have h1 := (List.mem_filter.1 hr).1
    obtain ⟨src, hsrc, rfl⟩ := List.mem_map.1 h1
    exact ⟨mem_rowKeys_setKey _ _ _, src, hsrc, _, rfl⟩

/-- Witness for `processCSV_kept_rows_have_normalizedDomain` on the
concrete run of the C2 counterexample. -/
theorem processCSV_kept_rows_have_normalizedDomain_witness :
    processCSV [] domainColumnNamesV1 (fun _ => some ⟨some ["10 mx.other.com."]⟩)
        [[("domain", some "a.com"), ("company", some "A")]]
      = ProcessResult.done
          [[("domain", some "a.com"), ("company", some "A"), ("normalizedDomain", some "a.com")]]
          0 ["a.com"] ∧
    ([("domain", some "a.com"), ("company", some "A"), ("normalizedDomain", some "a.com")] : Row)
      ∈ ([[("domain", some "a.com"), ("company", some "A"), ("normalizedDomain", some "a.com")]] : List Row) ∧
    "normalizedDomain" ∈ rowKeys
        [("domain", (some "a.com" : Option String)), ("company", some "A"), ("normalizedDomain", some "a.com")] :=
  ⟨by decide, by decide,
    (processCSV_kept_rows_have_normalizedDomain [] domainColumnNamesV1
      (fun _ => some ⟨some ["10 mx.other.com."]⟩)
      [[("domain", some "a.com"), ("company", some "A")]]
      [[("domain", some "a.com"), ("company", some "A"), ("normalizedDomain", some "a.com")]]
      0 ["a.com"] (by decide) _ (by decide)).1⟩

/-! ### C6: the exclusion predicate -/

/-- C6: for a row with a present normalized domain and a successful
resolution, the row is excluded (removedCount incremented, kept output
unchanged) precisely when at least one raw MX record string contains the
substring `.outlook` (case-sensitive); the first conjunct spells out
that `hasOutlook` is that existential. -/
theorem runFilter_excluded_iff_outlook :
    (∀ mx : List String,
      hasOutlook mx = true ↔ ∃ r, r ∈ mx ∧ containsSubstr ".outlook".data r.data = true) ∧
    ∀ (resolve : String → Option MXRecordResponse) (row : Row) (rest : List Row)
      (d : String) (resp : MXRecordResponse),
      rowDomain row = some d → resolve d = some resp →
      (((runFilter resolve (row :: rest)).removedCount = (runFilter resolve rest).removedCount + 1 ∧
        (runFilter resolve (row :: rest)).kept = (runFilter resolve rest).kept) ↔
        hasOutlook (resp.Answer.getD []) = true) := by
  constructor
  · intro mx
    simp [hasOutlook, List.any_eq_true]
  · intro resolve row rest d resp hD hR
    cases hO : hasOutlook (resp.Answer.getD []) with
    | true => simp [runFilter, hD, hR, hO]
    | false => simp [runFilter, hD, hR, hO]

/-- Witness for `runFilter_excluded_iff_outlook` on the spec's example
record `"1 mail.protection.outlook.com."`. -/
theorem runFilter_excluded_iff_outlook_witness :
    rowDomain [("normalizedDomain", some "x.com")] = some "x.com" ∧
    (fun _ : String => some (MXRecordResponse.mk (some ["1 mail.protection.outlook.com."]))) "x.com"
      = some (MXRecordResponse.mk (some ["1 mail.protection.outlook.com."])) ∧
    (((runFilter (fun _ : String => some ⟨some ["1 mail.protection.outlook.com."]⟩)
          [[("normalizedDomain", some "x.com")]]).removedCount
        = (runFilter (fun _ : String => some ⟨some ["1 mail.protection.outlook.com."]⟩)
            ([] : List Row)).removedCount + 1 ∧
      (runFilter (fun _ : String => some ⟨some ["1 mail.protection.outlook.com."]⟩)
          [[("normalizedDomain", some "x.com")]]).kept
        = (runFilter (fun _ : String => some ⟨some ["1 mail.protection.outlook.com."]⟩)
            ([] : List Row)).kept) ↔
      hasOutlook ((MXRecordResponse.mk (some ["1 mail.protection.outlook.com."])).Answer.getD []) = true) :=
  ⟨rfl, rfl,
    runFilter_excluded_iff_outlook.2 (fun _ => some ⟨some ["1 mail.protection.outlook.com."]⟩)
      [("normalizedDomain", some "x.com")] [] "x.com"
      (MXRecordResponse.mk (some ["1 mail.protection.outlook.com."])) rfl rfl⟩

/-! ### C7: one resolver call per present domain, skipped rows -/

/-- C7: the resolver is called exactly once per row with a present
normalized domain, in row order (the call trace is the `filterMap` of
`rowDomain`); a row with an absent normalized domain is skipped outright
(same outcome as if the row were not there: not kept, not counted, no
call); consequently kept + removed can undercount the input rows, as the
final existential exhibits. -/
theorem runFilter_calls_spec :
    (∀ (resolve : String → Option MXRecordResponse) (rows : List Row),
      (runFilter resolve rows).calls = rows.filterMap rowDomain) ∧
    (∀ (resolve : String → Option MXRecordResponse) (row : Row) (rest : List Row),
      rowDomain row = none → runFilter resolve (row :: rest) = runFilter resolve rest) ∧
    (∃ (resolve : String → Option MXRecordResponse) (rows : List Row),
      (runFilter resolve rows).kept.length + (runFilter resolve rows).removedCount < rows.length) := by
  refine ⟨?_, ?_, ?_⟩
  · intro resolve rows
    rw [runFilter_eq]
  · intro resolve row rest h
    simp [runFilter, h]
  · exact ⟨fun _ => none, [[("normalizedDomain", none)]], by decide⟩

/-- Witness for `runFilter_calls_spec` on a row whose domain field is
`undefined`. -/
theorem runFilter_calls_spec_witness :
    rowDomain [("normalizedDomain", (none : Option String))] = none ∧
    runFilter (fun _ : String => none) [[("normalizedDomain", none)]] =
      runFilter (fun _ : String => none) ([] : List Row) :=
  ⟨rfl, runFilter_calls_spec.2.1 (fun _ => none) [("normalizedDomain", none)] [] rfl⟩

/-! ### C8: missing domain column -/

/-- C8: when no key of the first data row matches the synonym set, the
pipeline stops at the early return: the result is the user-facing
no-domain-column error, the call trace is empty (no network activity),
and no kept/removed outcome is produced. -/
theorem processCSV_aborts_no_column :
    ∀ (header names : List String) (resolve : String → Option MXRecordResponse) (data : List Row),
      detectDomainColumn names ((data.head?.map rowKeys).getD []) = none →
      processCSV header names resolve data = ProcessResult.noDomainColumn [] := by
  intro header names resolve data h
  simp [processCSV, h]

/-- Witness for `processCSV_aborts_no_column` on the spec's example
header `["Name","Email"]`. -/
theorem processCSV_aborts_no_column_witness :
    detectDomainColumn domainColumnNamesV1
        ((([[("Name", some "x"), ("Email", some "y")]] : List Row).head?.map rowKeys).getD []) = none ∧
    processCSV [] domainColumnNamesV1 (fun _ => none) [[("Name", some "x"), ("Email", some "y")]]
      = ProcessResult.noDomainColumn [] :=
  ⟨by decide,
    processCSV_aborts_no_column [] domainColumnNamesV1 (fun _ => none)
      [[("Name", some "x"), ("Email", some "y")]] (by decide)⟩

/-! ### C9: the outcome bound -/

/-- C9: whenever the pipeline completes, removedCount plus the number of
kept rows is at most the number of input rows (removedCount is a `Nat`,
hence non-negative by type). -/
theorem processCSV_removed_add_kept_le :
    ∀ (header names : List String) (resolve : String → Option MXRecordResponse)
      (data kept : List Row) (n : Nat) (calls : List String),
      processCSV header names resolve data = ProcessResult.done kept n calls →
      n + kept.length ≤ data.length := by
  intro header names resolve data kept n calls hp
  cases hdet : detectDomainColumn names ((data.head?.map rowKeys).getD []) with
  | none => simp [processCSV, hdet] at hp
  | some dc =>
    simp only [processCSV, hdet] at hp
    rw [runFilter_eq] at hp
    cases hp
    have hdisj : ∀ x, ¬(excludesRow resolve x = true ∧ keepsRow resolve x = true) := by
      intro x hx
      exact keeps_excludes_disjoint resolve x ⟨hx.2, hx.1⟩
    have := length_filter_add_length_filter_le (excludesRow resolve) (keepsRow resolve)
      (data.map (fun row => setKey row "normalizedDomain" (normalizeDomain (getVal row dc)))) hdisj
    simpa [List.length_map] using this

/-- Witness for `processCSV_removed_add_kept_le` on a run that removes
its single row. -/
theorem processCSV_removed_add_kept_le_witness :
    processCSV [] domainColumnNamesV1 (fun _ : String => some ⟨some ["1 mail.protection.outlook.com."]⟩)
        [[("domain", some "a.com")]] = ProcessResult.done [] 1 ["a.com"] ∧
    1 + ([] : List Row).length ≤ ([[("domain", (some "a.com" : Option String))]] : List Row).length :=
  ⟨by decide,
    processCSV_removed_add_kept_le [] domainColumnNamesV1
      (fun _ => some ⟨some ["1 mail.protection.outlook.com."]⟩)
      [[("domain", some "a.com")]] [] 1 ["a.com"] (by decide)⟩

/-! ### C10: zero data rows -/

/-- C10: with zero data rows, `Object.keys(data[0] || {})` is empty, so
column detection fails and the pipeline aborts with the no-domain-column
error and an empty call trace — for every parsed header (the `header`
argument models `results.meta.fields`, which the source never reads) and
every synonym list, including ones naming a domain column. -/
theorem processCSV_empty_data_aborts :
    ∀ (header names : List String) (resolve : String → Option MXRecordResponse),
      processCSV header names resolve [] = ProcessResult.noDomainColumn [] := by
  intro header names resolve
  rfl

end OUTlook
